import Mathlib

/-!
Shallow embedding of the HTML-to-PDF conversion service in `src/app.py`
(Flask application with routes `/convert` and `/convert-with-params`),
together with theorems about the Input Resolver and the Page-Style
Injector.  Machine strings are modelled as Lean `String` (lists of
characters); the external rendering engine is treated as a black box, so
a handler's behaviour is modelled up to the point where it either
returns an error response or invokes the renderer on a fully prepared
HTML string.
-/

namespace HtmlToPdf

/-- Scanner for Python `str.replace(pat, repl)`: walks the character
list left to right; at a position where `pat` starts it emits `repl`
and then silently skips the remaining `pat.length - 1` pattern
characters (tracked by the `skip` counter), so matches are
non-overlapping and scanned left to right exactly as in CPython. -/
def replaceGo (pat repl : List Char) : Nat → List Char → List Char
  | _, [] => []
  | Nat.succ skip, _ :: cs => replaceGo pat repl skip cs
  | 0, c :: cs =>
    if pat ≠ [] ∧ pat.isPrefixOf (c :: cs) then
      repl ++ replaceGo pat repl (pat.length - 1) cs
    else
      c :: replaceGo pat repl 0 cs

/-- Python `str.replace(pat, repl)` on lists of characters: every
non-overlapping occurrence of `pat`, scanned left to right, is replaced
by `repl`.  (The service only calls this with the non-empty pattern
`"<head>"`; for an empty pattern this model is the identity.) -/
def replaceList (pat repl s : List Char) : List Char :=
  replaceGo pat repl 0 s

/-- Python `pat in s` substring test on lists of characters. -/
def containsList (pat : List Char) : List Char → Bool
  | [] => pat.isEmpty
  | c :: cs => pat.isPrefixOf (c :: cs) || containsList pat cs

/-- Python `s.replace(pat, repl)` on strings. -/
def pyReplace (s pat repl : String) : String :=
  ⟨replaceList pat.data repl.data s.data⟩

/-- Python `pat in s` substring test on strings. -/
def pyContains (s pat : String) : Bool :=
  containsList pat.data s.data

/-- Builds `page_css` as in `src/app.py` lines 131-136: a rule
`size: <page_size>` when `page_size` is truthy (non-empty), then the
bare `<orientation>` token when truthy, joined by `"; "`, wrapped in
`<style>@page ... </style>` with a trailing `margin: 0`. -/
def buildPageCss (page_size orientation : String) : String :=
  let css_rules : List String :=
    (if page_size ≠ "" then ["size: " ++ page_size] else []) ++
    (if orientation ≠ "" then [orientation] else [])
  "<style>@page \x7b " ++ String.intercalate "; " css_rules ++
    "; margin: 0; \x7d</style>"

/-- The Page-Style Injector, `src/app.py` lines 130-144: when
`page_size` or `orientation` is truthy, build the style block and
either splice it after `<head>` (via `str.replace`, when the input
contains `<head>`) or wrap the input in a fresh full document. -/
def injectPageCss (page_size orientation html_content : String) : String :=
  if page_size ≠ "" ∨ orientation ≠ "" then
    let page_css := buildPageCss page_size orientation
    if pyContains html_content "<head>" then
      pyReplace html_content "<head>" ("<head>" ++ page_css)
    else
      "<html><head>" ++ page_css ++ "</head><body>" ++ html_content ++
        "</body></html>"
  else html_content

/-- The request-scoped data the `/convert` handler inspects: the
content-type header, the raw body decoded as UTF-8, the parsed JSON
body when the body is a JSON object with string fields (`none` when
`request.get_json()` yields no such object), the uploaded files
(field name to decoded content) and the form fields. -/
structure ConvRequest where
  content_type : Option String
  body : String
  jsonBody : Option (List (String × String))
  files : List (String × String)
  form : List (String × String)

/-- Python `request.content_type and sub in request.content_type`. -/
def ctMatches (req : ConvRequest) (sub : String) : Bool :=
  match req.content_type with
  | none => false
  | some ct => pyContains ct sub

/-- Outcome of the `/convert` handler, modelled up to the Render
Adapter: `render html filename` means the handler reached
`HTML(string=html_content).write_pdf()` with that HTML and would send
the PDF under `filename`; `serverError` is the catch-all 500 branch
(reached in this model when the JSON branch is taken but
`request.get_json()` produced no object, so `data.get` raises). -/
inductive ConvOutcome where
  | badRequest (error : String) (aceita : List String)
  | render (html : String) (filename : String)
  | serverError
  deriving DecidableEq

/-- The `aceita` list of the `/convert` 400 response,
`src/app.py` lines 74-78. -/
def aceitaList : List String :=
  ["Content-Type: text/html (HTML no body)",
   "Content-Type: application/json (\x7b\"html\": \"...\"\x7d)",
   "multipart/form-data (file ou html)"]

/-- The Input Resolver, `src/app.py` lines 48-70: the four-way
`if/elif` chain that extracts `html_content`.  Result `none` models the
exception path (JSON branch taken with no parsed object);
`some none` models `html_content = None` after all branches;
`some (some h)` models a resolved string `h`. -/
def resolveHtml (req : ConvRequest) : Option (Option String) :=
  if ctMatches req "text/html" then
    some (some req.body)
  else if ctMatches req "application/json" then
    match req.jsonBody with
    | none => none
    | some data => some (data.lookup "html")
  else if (req.files.lookup "file").isSome then
    some (req.files.lookup "file")
  else if (req.form.lookup "html").isSome then
    some (req.form.lookup "html")
  else
    some none

/-- The `/convert` handler `convert_html_to_pdf`, `src/app.py`
lines 35-103, up to the Render Adapter: resolve the input, answer 400
when `html_content` is falsy (absent or empty), otherwise render with
the fixed attachment name `documento.pdf`. -/
def convert_html_to_pdf (req : ConvRequest) : ConvOutcome :=
  match resolveHtml req with
  | none => .serverError
  | some none => .badRequest "Nenhum HTML fornecido" aceitaList
  | some (some h) =>
    if h = "" then .badRequest "Nenhum HTML fornecido" aceitaList
    else .render h "documento.pdf"

/-- Outcome of the `/convert-with-params` handler, modelled up to the
Render Adapter. -/
inductive ParamsOutcome where
  | badRequest (error : String)
  | render (html : String) (filename : String)
  deriving DecidableEq

/-- The `/convert-with-params` handler `convert_with_params`,
`src/app.py` lines 105-160, up to the Render Adapter.  Its input is the
parsed JSON body (`none` when `request.get_json()` yields no object,
which is falsy like an empty object): a falsy body or a body without an
`html` key answers 400; otherwise the defaults are filled in, the
Page-Style Injector runs, and the renderer is invoked. -/
def convert_with_params (jsonBody : Option (List (String × String))) :
    ParamsOutcome :=
  match jsonBody with
  | none => .badRequest "Campo \"html\" é obrigatório"
  | some data =>
    if data.isEmpty ∨ (data.lookup "html").isNone then
      .badRequest "Campo \"html\" é obrigatório"
    else
      let html_content := (data.lookup "html").getD ""
      let filename := (data.lookup "filename").getD "documento.pdf"
      let page_size := (data.lookup "page_size").getD "A4"
      let orientation := (data.lookup "orientation").getD "portrait"
      .render (injectPageCss page_size orientation html_content) filename

/-! ### Basic properties of the `str.replace` and substring models -/

theorem replaceGo_skip (pat repl : List Char) :
    ∀ s : List Char, ∀ skip : Nat,
      replaceGo pat repl skip s = replaceGo pat repl 0 (s.drop skip) := by
  intro s
  induction s with
  | nil => intro skip; cases skip <;> rfl
  | cons c cs ih =>
    intro skip
    cases skip with
    | zero => rfl
    | succ k => rw [List.drop_succ_cons, ← ih k]; rfl

theorem replaceList_nil (pat repl : List Char) :
    replaceList pat repl [] = [] := rfl

theorem replaceList_pos (pat repl : List Char) {c : Char} {cs : List Char}
    (hne : pat ≠ []) (hpre : pat.isPrefixOf (c :: cs)) :
    replaceList pat repl (c :: cs) =
      repl ++ replaceList pat repl (cs.drop (pat.length - 1)) := by
  show replaceGo pat repl 0 (c :: cs) = _
  rw [replaceGo, if_pos ⟨hne, hpre⟩, replaceGo_skip]
  rfl

theorem replaceList_neg (pat repl : List Char) {c : Char} {cs : List Char}
    (h : ¬(pat ≠ [] ∧ pat.isPrefixOf (c :: cs))) :
    replaceList pat repl (c :: cs) = c :: replaceList pat repl cs := by
  show replaceGo pat repl 0 (c :: cs) = _
  rw [replaceGo, if_neg h]
  rfl

theorem containsList_iff_isInfix {pat s : List Char} :
    containsList pat s = true ↔ pat <:+: s := by
  induction s with
  | nil =>
    simp [containsList, List.isEmpty_iff, List.infix_nil]
  | cons c cs ih =>
    rw [containsList, Bool.or_eq_true, ih, List.isPrefixOf_iff_prefix,
      List.infix_cons_iff]

theorem containsList_mid (pat a b : List Char) :
    containsList pat (a ++ pat ++ b) = true := by
  rw [containsList_iff_isInfix]
  exact List.infix_append a pat b

theorem replaceList_of_not_contains {pat repl s : List Char}
    (h : containsList pat s = false) : replaceList pat repl s = s := by
  induction s with
  | nil => rfl
  | cons c cs ih =>
    rw [containsList, Bool.or_eq_false_iff] at h
    rw [replaceList_neg pat repl (by simp [h.1]), ih h.2]

theorem replaceList_append_pat {pat repl t : List Char} (hne : pat ≠ []) :
    replaceList pat repl (pat ++ t) = repl ++ replaceList pat repl t := by
  cases pat with
  | nil => exact absurd rfl hne
  | cons p ps =>
    rw [List.cons_append,
      replaceList_pos _ _ hne
        ( List.isPrefixOf_iff_prefix.mpr ⟨t, by simp⟩),
      List.length_cons, Nat.add_sub_cancel, List.drop_left]

theorem replaceList_skip_clean {pat repl t : List Char} :
    ∀ a : List Char,
      (∀ x, x <:+ a → x ≠ [] → ¬(pat.isPrefixOf (x ++ t) = true)) →
      replaceList pat repl (a ++ t) = a ++ replaceList pat repl t := by
  intro a
  induction a with
  | nil => simp
  | cons c a' ih =>
    intro H
    have h1 : ¬(pat.isPrefixOf (c :: (a' ++ t)) = true) := by
      have := H (c :: a') (List.suffix_refl _) (by simp)
      simpa using this
    rw [List.cons_append, replaceList_neg pat repl (by simp [h1]),
      ih fun x hx hxne => H x (hx.trans (List.suffix_cons c a')) hxne,
      List.cons_append]

theorem not_prefixOf_mid {pat a b x : List Char}
    (hnb : ∀ k, k < pat.length → 0 < k →
      pat.drop k ≠ pat.take (pat.length - k))
    (hca : containsList pat a = false)
    (hx : x <:+ a) (hxne : x ≠ []) :
    ¬(pat.isPrefixOf (x ++ (pat ++ b)) = true) := by
  intro hpre
  rw [ List.isPrefixOf_iff_prefix] at hpre
  rcases le_or_lt pat.length x.length with hle | hlt
  · -- the alleged match lies entirely inside `x`, hence inside `a`
    have htake : pat = x.take pat.length := by
      have h1 := List.prefix_iff_eq_take.mp hpre
      rwa [List.take_append_of_le_length hle] at h1
    have hpx : pat <+: x := htake ▸ List.take_prefix pat.length x
    obtain ⟨z, hz⟩ := hpx
    obtain ⟨w, hw⟩ := hx
    have hinf : pat <:+: a := ⟨w, z, by rw [← hw, ← hz]; simp⟩
    exact absurd (containsList_iff_isInfix.mpr hinf) (by simp [hca])
  · -- the alleged match straddles the end of `x`: `pat` would have a border
    have hxlen : x.length = pat.length - (pat.length - x.length) := by omega
    have htake : pat = x ++ pat.take (pat.length - x.length) := by
      have h1 := List.prefix_iff_eq_take.mp hpre
      have h2 : pat.length = x.length + (pat.length - x.length) := by omega
      rw [h2, List.take_append, List.take_append_of_le_length (by omega)] at h1
      exact h1
    have hdrop : pat.drop x.length = pat.take (pat.length - x.length) := by
      conv_lhs => rw [htake]
      rw [List.drop_left]
    have hk := hnb x.length hlt (by
      cases x with
      | nil => exact absurd rfl hxne
      | cons _ _ => simp)
    exact hk hdrop

theorem head_tag_no_border :
    ∀ k, k < "<head>".data.length → 0 < k →
      "<head>".data.drop k ≠ "<head>".data.take ("<head>".data.length - k) := by
  decide

theorem replaceList_single {pat repl a b : List Char}
    (hnb : ∀ k, k < pat.length → 0 < k →
      pat.drop k ≠ pat.take (pat.length - k))
    (hne : pat ≠ [])
    (hca : containsList pat a = false)
    (hcb : containsList pat b = false) :
    replaceList pat repl (a ++ pat ++ b) = a ++ repl ++ b := by
  rw [List.append_assoc,
    replaceList_skip_clean a (fun x hx hxne => not_prefixOf_mid hnb hca hx hxne),
    replaceList_append_pat hne, replaceList_of_not_contains hcb,
    List.append_assoc]

theorem sublist_replaceList (pat ins : List Char) :
    ∀ n : Nat, ∀ s : List Char, s.length ≤ n →
      s.Sublist (replaceList pat (pat ++ ins) s) := by
  intro n
  induction n with
  | zero =>
    intro s hs
    rw [List.length_eq_zero.mp (Nat.le_zero.mp hs)]
    exact List.Sublist.refl _
  | succ n ih =>
    intro s hs
    cases s with
    | nil => exact List.Sublist.refl _
    | cons c cs =>
      by_cases hc : pat ≠ [] ∧ pat.isPrefixOf (c :: cs)
      · rw [replaceList_pos pat _ hc.1 hc.2]
        have hsplit : c :: cs = pat ++ cs.drop (pat.length - 1) := by
          have h1 := List.prefix_iff_eq_append.mp
            ( List.isPrefixOf_iff_prefix.mp hc.2)
          cases pat with
          | nil => exact absurd rfl hc.1
          | cons p ps =>
            rw [List.length_cons, List.drop_succ_cons] at h1
            rw [← h1, List.length_cons, Nat.add_sub_cancel]
        have hlen : (cs.drop (pat.length - 1)).length ≤ n := by
          have := List.length_drop (pat.length - 1) cs
          have hcs : cs.length ≤ n := by
            have := hs; simp only [List.length_cons] at this; omega
          omega
        have hrec := ih (cs.drop (pat.length - 1)) hlen
        rw [hsplit]
        have h3 := List.Sublist.append_left
          (hrec.trans (List.sublist_append_right ins _)) pat
        rwa [← List.append_assoc] at h3
      · rw [replaceList_neg pat _ hc]
        exact List.Sublist.cons₂ c (ih cs (by
          have := hs; simp only [List.length_cons] at this; omega))

theorem length_replaceList_add (pat ins : List Char) (hne : pat ≠ []) :
    ∀ n : Nat, ∀ s : List Char, s.length ≤ n →
      containsList pat s = true →
      s.length + ins.length ≤ (replaceList pat (pat ++ ins) s).length := by
  intro n
  induction n with
  | zero =>
    intro s hs hcont
    rw [List.length_eq_zero.mp (Nat.le_zero.mp hs)] at hcont
    rw [containsList, List.isEmpty_iff] at hcont
    exact absurd hcont hne
  | succ n ih =>
    intro s hs hcont
    cases s with
    | nil =>
      rw [containsList, List.isEmpty_iff] at hcont
      exact absurd hcont hne
    | cons c cs =>
      by_cases hc : pat.isPrefixOf (c :: cs)
      · rw [replaceList_pos pat _ hne hc]
        have hsplit : (c :: cs).length =
            pat.length + (cs.drop (pat.length - 1)).length := by
          have h1 := List.prefix_iff_eq_append.mp
            ( List.isPrefixOf_iff_prefix.mp hc)
          cases pat with
          | nil => exact absurd rfl hne
          | cons p ps =>
            rw [List.length_cons, List.drop_succ_cons] at h1
            conv_lhs => rw [← h1]
            simp only [List.length_cons, List.length_append,
              List.length_drop]
            omega
        have hsub := (sublist_replaceList pat ins
          (cs.drop (pat.length - 1)).length
          (cs.drop (pat.length - 1)) le_rfl).length_le
        rw [List.length_append, List.length_append]
        omega
      · have hcont' : containsList pat cs = true := by
          rw [containsList, Bool.or_eq_true] at hcont
          rcases hcont with h | h
          · exact absurd h hc
          · exact h
        rw [replaceList_neg pat _ (by simp [hc])]
        have := ih cs (by
          have := hs; simp only [List.length_cons] at this; omega) hcont'
        simp only [List.length_cons]
        omega

theorem containsList_replaceList (pat ins : List Char) (hne : pat ≠ []) :
    ∀ n : Nat, ∀ s : List Char, s.length ≤ n →
      containsList pat s = true →
      containsList pat (replaceList pat (pat ++ ins) s) = true := by
  intro n
  induction n with
  | zero =>
    intro s hs hcont
    rw [List.length_eq_zero.mp (Nat.le_zero.mp hs)] at hcont
    rw [containsList, List.isEmpty_iff] at hcont
    exact absurd hcont hne
  | succ n ih =>
    intro s hs hcont
    cases s with
    | nil =>
      rw [containsList, List.isEmpty_iff] at hcont
      exact absurd hcont hne
    | cons c cs =>
      by_cases hc : pat.isPrefixOf (c :: cs)
      · rw [replaceList_pos pat _ hne hc]
        rw [containsList_iff_isInfix]
        exact ⟨[], ins ++ replaceList pat (pat ++ ins)
          (cs.drop (pat.length - 1)), by simp⟩
      · have hcont' : containsList pat cs = true := by
          rw [containsList, Bool.or_eq_true] at hcont
          rcases hcont with h | h
          · exact absurd h hc
          · exact h
        rw [replaceList_neg pat _ (by simp [hc])]
        rw [containsList, Bool.or_eq_true]
        exact Or.inr (ih cs (by
          have := hs; simp only [List.length_cons] at this; omega) hcont')

/-! ### Page-Style Injector claims -/

theorem buildPageCss_data_pos (page_size orientation : String) :
    0 < (buildPageCss page_size orientation).data.length := by
  simp [buildPageCss, String.data_append, List.length_append]

/-- C7: for every pair of present (non-empty) parameters `page_size` and
`orientation`, the style block built by the Page-Style Injector is
exactly `<style>@page { size: <page_size>; <orientation>; margin: 0;
}</style>`: the `size:` clause, then the bare orientation token, joined
by `"; "`, followed by the trailing `margin: 0`. -/
theorem buildPageCss_both_present (page_size orientation : String)
    (hp : page_size ≠ "") (ho : orientation ≠ "") :
    buildPageCss page_size orientation =
      "<style>@page \x7b size: " ++ page_size ++ "; " ++ orientation ++
        "; margin: 0; \x7d</style>" := by
  simp only [buildPageCss, if_pos hp, if_pos ho, List.cons_append,
    List.nil_append, String.intercalate, String.intercalate.go]
  apply String.ext
  simp [String.data_append, List.append_assoc]

/-- C7 witness: the defaults `A4`/`portrait` are non-empty and produce
the literal style block of the claim. -/
theorem buildPageCss_both_present_example :
    buildPageCss "A4" "portrait" =
      "<style>@page \x7b size: " ++ "A4" ++ "; " ++ "portrait" ++
        "; margin: 0; \x7d</style>" :=
  buildPageCss_both_present "A4" "portrait" (by decide) (by decide)

/-- C6: for every HTML input string with no `<head>` substring (and at
least one presentation parameter present, so that a style block is
built), the Page-Style Injector returns exactly the full document
`<html><head>{style}</head><body>{fragment}</body></html>` with the
unmodified input as `{fragment}`. -/
theorem injectPageCss_no_head (page_size orientation html : String)
    (hpo : page_size ≠ "" ∨ orientation ≠ "")
    (hh : pyContains html "<head>" = false) :
    injectPageCss page_size orientation html =
      "<html><head>" ++ buildPageCss page_size orientation ++
        "</head><body>" ++ html ++ "</body></html>" := by
  simp [injectPageCss, hpo, hh]

/-- C6 witness: a concrete fragment without `<head>` is wrapped into a
full document. -/
theorem injectPageCss_no_head_example :
    injectPageCss "A4" "portrait" "<p>x</p>" =
      "<html><head>" ++ buildPageCss "A4" "portrait" ++
        "</head><body>" ++ "<p>x</p>" ++ "</body></html>" :=
  injectPageCss_no_head "A4" "portrait" "<p>x</p>" (Or.inl (by decide))
    (by decide)

/-- C1 counterexample: on the input `<head><head>` (which contains
`<head>` twice) the injector inserts a style block after both
occurrences, because `str.replace` replaces every occurrence; the
output is not the string with a single block after the first
occurrence that the claim demands. -/
theorem injectPageCss_styles_every_occurrence :
    injectPageCss "A4" "portrait" "<head><head>" =
      "<head>" ++ buildPageCss "A4" "portrait" ++ "<head>" ++
        buildPageCss "A4" "portrait" ∧
    injectPageCss "A4" "portrait" "<head><head>" ≠
      "<head>" ++ buildPageCss "A4" "portrait" ++ "<head>" := by
  constructor
  · decide
  · decide

/-- C1 (amended): for an input that contains `<head>`, the injector
splices the style block after every occurrence; when the occurrence is
unique — the input splits as `a ++ "<head>" ++ b` with neither `a` nor
`b` containing `<head>` — the output is exactly the input with one
style block inserted immediately after that occurrence and every other
byte unchanged. -/
theorem injectPageCss_single_head (page_size orientation a b : String)
    (hpo : page_size ≠ "" ∨ orientation ≠ "")
    (ha : pyContains a "<head>" = false)
    (hb : pyContains b "<head>" = false) :
    injectPageCss page_size orientation (a ++ "<head>" ++ b) =
      a ++ "<head>" ++ buildPageCss page_size orientation ++ b := by
  have hc : pyContains (a ++ "<head>" ++ b) "<head>" = true := by
    show containsList "<head>".data (a ++ "<head>" ++ b).data = true
    rw [String.data_append, String.data_append]
    exact containsList_mid _ _ _
  have h2 : injectPageCss page_size orientation (a ++ "<head>" ++ b) =
      pyReplace (a ++ "<head>" ++ b) "<head>"
        ("<head>" ++ buildPageCss page_size orientation) := by
    simp [injectPageCss, hpo, hc]
  rw [h2]
  apply String.ext
  show replaceList "<head>".data
      ("<head>" ++ buildPageCss page_size orientation).data
      (a ++ "<head>" ++ b).data = _
  rw [String.data_append, String.data_append, String.data_append,
    String.data_append, String.data_append]
  rw [replaceList_single head_tag_no_border (by decide) ha hb]
  simp [List.append_assoc]

/-- C1 witness: a document whose single `<head>` occurrence splits it
as `"<html>" ++ "<head>" ++ rest` receives exactly one style block
right after the head tag. -/
theorem injectPageCss_single_head_example :
    injectPageCss "A4" "portrait"
        ("<html>" ++ "<head>" ++ "</head><body>x</body></html>") =
      "<html>" ++ "<head>" ++ buildPageCss "A4" "portrait" ++
        "</head><body>x</body></html>" :=
  injectPageCss_single_head "A4" "portrait" "<html>"
    "</head><body>x</body></html>" (Or.inl (by decide)) (by decide)
    (by decide)

/-- C8: the Page-Style Injector never discards or reorders input bytes;
for every input and every parameter choice the input string is a
subsequence of the output, all modification being textual insertion. -/
theorem injectPageCss_preserves_input (page_size orientation html : String) :
    html.data.Sublist (injectPageCss page_size orientation html).data := by
  by_cases hpo : page_size ≠ "" ∨ orientation ≠ ""
  · by_cases hh : pyContains html "<head>" = true
    · have h2 : injectPageCss page_size orientation html =
          pyReplace html "<head>"
            ("<head>" ++ buildPageCss page_size orientation) := by
        simp [injectPageCss, hpo, hh]
      rw [h2]
      show html.data.Sublist (replaceList "<head>".data
        ("<head>" ++ buildPageCss page_size orientation).data html.data)
      rw [String.data_append]
      exact sublist_replaceList _ _ html.data.length html.data le_rfl
    · have h2 : injectPageCss page_size orientation html =
          "<html><head>" ++ buildPageCss page_size orientation ++
            "</head><body>" ++ html ++ "</body></html>" := by
        simp only [Bool.not_eq_true] at hh
        simp [injectPageCss, hpo, hh]
      rw [h2, String.data_append, String.data_append, String.data_append,
        String.data_append]
      exact (List.sublist_append_right _ html.data).trans
        (List.sublist_append_left _ _)
  · have h2 : injectPageCss page_size orientation html = html := by
      simp [injectPageCss, hpo]
    rw [h2]

/-- C9: the injector is not idempotent: whenever a parameter is present,
applying it a second time to its own output (a document that contains
`<head>` and an injected style block) inserts a second style block, so
the twice-applied output differs from the once-applied output. -/
theorem injectPageCss_not_idempotent (page_size orientation html : String)
    (hpo : page_size ≠ "" ∨ orientation ≠ "") :
    injectPageCss page_size orientation
        (injectPageCss page_size orientation html) ≠
      injectPageCss page_size orientation html := by
  have hct : pyContains (injectPageCss page_size orientation html)
      "<head>" = true := by
    by_cases hh : pyContains html "<head>" = true
    · have h2 : injectPageCss page_size orientation html =
          pyReplace html "<head>"
            ("<head>" ++ buildPageCss page_size orientation) := by
        simp [injectPageCss, hpo, hh]
      rw [h2]
      show containsList "<head>".data (replaceList "<head>".data
        ("<head>" ++ buildPageCss page_size orientation).data
        html.data) = true
      rw [String.data_append]
      exact containsList_replaceList _ _ (by decide) html.data.length
        html.data le_rfl hh
    · have h2 : injectPageCss page_size orientation html =
          "<html><head>" ++ buildPageCss page_size orientation ++
            "</head><body>" ++ html ++ "</body></html>" := by
        simp only [Bool.not_eq_true] at hh
        simp [injectPageCss, hpo, hh]
      rw [h2]
      show containsList "<head>".data _ = true
      rw [containsList_iff_isInfix]
      have hdec : "<html><head>".data =
          "<html>".data ++ "<head>".data := by decide
      refine ⟨"<html>".data,
        (buildPageCss page_size orientation).data ++
          "</head><body>".data ++ html.data ++ "</body></html>".data, ?_⟩
      rw [String.data_append, String.data_append, String.data_append,
        String.data_append, hdec]
      simp [List.append_assoc]
  intro heq
  have h2 : ∀ t : String, pyContains t "<head>" = true →
      injectPageCss page_size orientation t =
        pyReplace t "<head>"
          ("<head>" ++ buildPageCss page_size orientation) := by
    intro t hc
    simp [injectPageCss, hpo, hc]
  rw [h2 _ hct] at heq
  have hdata : replaceList "<head>".data
      ("<head>".data ++ (buildPageCss page_size orientation).data)
      (injectPageCss page_size orientation html).data =
      (injectPageCss page_size orientation html).data := by
    have := congrArg String.data heq
    simpa [pyReplace, String.data_append] using this
  have hlen := length_replaceList_add "<head>".data
    (buildPageCss page_size orientation).data (by decide)
    (injectPageCss page_size orientation html).data.length
    (injectPageCss page_size orientation html).data le_rfl hct
  rw [hdata] at hlen
  have hpos := buildPageCss_data_pos page_size orientation
  omega

/-- C9 witness: with the default parameters, re-injecting into an
already-styled document changes it again. -/
theorem injectPageCss_not_idempotent_example :
    injectPageCss "A4" "portrait"
        (injectPageCss "A4" "portrait" "<p>x</p>") ≠
      injectPageCss "A4" "portrait" "<p>x</p>" :=
  injectPageCss_not_idempotent "A4" "portrait" "<p>x</p>"
    (Or.inl (by decide))

/-! ### Input Resolver and HTTP-surface claims -/

/-- C4: the Input Resolver evaluates its four extraction rules in the
fixed order raw-HTML content type, JSON content type, uploaded `file`
attachment, form field `html`; the first matching rule wins and later
rules are never consulted (the result is insensitive to the data the
later rules would read); when no rule matches it signals "no input
found" (`some none`), so at most one candidate string is produced. -/
theorem resolveHtml_precedence (req : ConvRequest) :
    (ctMatches req "text/html" = true →
      ∀ jb fs fm,
        resolveHtml { req with jsonBody := jb, files := fs, form := fm } =
          some (some req.body)) ∧
    (ctMatches req "text/html" = false →
      ctMatches req "application/json" = true →
      ∀ d, req.jsonBody = some d →
      ∀ fs fm, resolveHtml { req with files := fs, form := fm } =
        some (d.lookup "html")) ∧
    (ctMatches req "text/html" = false →
      ctMatches req "application/json" = false →
      ∀ c, req.files.lookup "file" = some c →
      ∀ fm, resolveHtml { req with form := fm } = some (some c)) ∧
    (ctMatches req "text/html" = false →
      ctMatches req "application/json" = false →
      req.files.lookup "file" = none →
      ∀ v, req.form.lookup "html" = some v →
        resolveHtml req = some (some v)) ∧
    (ctMatches req "text/html" = false →
      ctMatches req "application/json" = false →
      req.files.lookup "file" = none → req.form.lookup "html" = none →
      resolveHtml req = some none) := by
  obtain ⟨ct, body, jb0, fs0, fm0⟩ := req
  refine ⟨?_, ?_, ?_, ?_, ?_⟩
  · intro h1 jb fs fm
    simp only [ctMatches] at h1
    simp [resolveHtml, ctMatches, h1]
  · intro h1 h2 d hd fs fm
    simp only [ctMatches] at h1 h2
    simp only at hd
    simp [resolveHtml, ctMatches, h1, h2, hd]
  · intro h1 h2 c hc fm
    simp only [ctMatches] at h1 h2
    simp only at hc
    simp [resolveHtml, ctMatches, h1, h2, hc]
  · intro h1 h2 hfile v hform
    simp only [ctMatches] at h1 h2
    simp only at hfile hform
    simp [resolveHtml, ctMatches, h1, h2, hfile, hform]
  · intro h1 h2 hfile hform
    simp only [ctMatches] at h1 h2
    simp only at hfile hform
    simp [resolveHtml, ctMatches, h1, h2, hfile, hform]

/-- C4 witness: one concrete request per rule, each carrying data for
all the later rules, resolved by the first matching rule alone. -/
theorem resolveHtml_precedence_example :
    resolveHtml ⟨some "text/html", "<p>a</p>", some [("html", "j")],
        [("file", "f")], [("html", "g")]⟩ = some (some "<p>a</p>") ∧
    resolveHtml ⟨some "application/json", "zz", some [("html", "j")],
        [("file", "f")], [("html", "g")]⟩ = some (some "j") ∧
    resolveHtml ⟨none, "zz", none, [("file", "f")], [("html", "g")]⟩ =
      some (some "f") ∧
    resolveHtml ⟨none, "zz", none, [], [("html", "g")]⟩ =
      some (some "g") ∧
    resolveHtml ⟨none, "zz", none, [], []⟩ = some none :=
  ⟨(resolveHtml_precedence ⟨some "text/html", "<p>a</p>",
      some [("html", "j")], [("file", "f")], [("html", "g")]⟩).1
      (by decide) (some [("html", "j")]) [("file", "f")] [("html", "g")],
   (resolveHtml_precedence ⟨some "application/json", "zz",
      some [("html", "j")], [("file", "f")], [("html", "g")]⟩).2.1
      (by decide) (by decide) [("html", "j")] rfl
      [("file", "f")] [("html", "g")],
   (resolveHtml_precedence ⟨none, "zz", none, [("file", "f")],
      [("html", "g")]⟩).2.2.1 (by decide) (by decide) "f" rfl
      [("html", "g")],
   (resolveHtml_precedence ⟨none, "zz", none, [],
      [("html", "g")]⟩).2.2.2.1 (by decide) (by decide) rfl "g" rfl,
   (resolveHtml_precedence ⟨none, "zz", none, [], []⟩).2.2.2.2
      (by decide) (by decide) rfl rfl⟩

/-- C5: for a JSON-classified request (JSON content type, not raw-HTML)
whose parsed body is an object, the Input Resolver returns exactly the
string stored under `html` when that field is present, and signals "no
input found" when the field is absent, in which case `/convert`
answers 400 `Nenhum HTML fornecido`. -/
theorem resolveHtml_json (req : ConvRequest) (d : List (String × String))
    (h1 : ctMatches req "text/html" = false)
    (h2 : ctMatches req "application/json" = true)
    (hd : req.jsonBody = some d) :
    (∀ s, d.lookup "html" = some s → resolveHtml req = some (some s)) ∧
    (d.lookup "html" = none →
      resolveHtml req = some none ∧
      convert_html_to_pdf req =
        ConvOutcome.badRequest "Nenhum HTML fornecido" aceitaList) := by
  constructor
  · intro s hs
    simp [resolveHtml, h1, h2, hd, hs]
  · intro hs
    have hres : resolveHtml req = some none := by
      simp [resolveHtml, h1, h2, hd, hs]
    exact ⟨hres, by simp [convert_html_to_pdf, hres]⟩

/-- C5 witness: a JSON request with a string `html` field resolves to
that exact string; one without the field gets the 400 response. -/
theorem resolveHtml_json_example :
    resolveHtml ⟨some "application/json", "",
        some [("html", "<p>j</p>")], [], []⟩ = some (some "<p>j</p>") ∧
    convert_html_to_pdf ⟨some "application/json", "", some [], [], []⟩ =
      ConvOutcome.badRequest "Nenhum HTML fornecido" aceitaList :=
  ⟨(resolveHtml_json ⟨some "application/json", "",
        some [("html", "<p>j</p>")], [], []⟩ [("html", "<p>j</p>")]
      (by decide) (by decide) rfl).1 "<p>j</p>" rfl,
   ((resolveHtml_json ⟨some "application/json", "", some [], [], []⟩ []
      (by decide) (by decide) rfl).2 rfl).2⟩

/-- C3 counterexample: for a request matching no rule `/convert` does
answer 400 `Nenhum HTML fornecido`, but the `aceita` list of the
response has three entries, not the four the claim demands (the single
`multipart/form-data` entry covers both the file and the form field
encodings). -/
theorem aceita_has_three_items :
    convert_html_to_pdf ⟨none, "", none, [], []⟩ =
      ConvOutcome.badRequest "Nenhum HTML fornecido" aceitaList ∧
    aceitaList.length ≠ 4 := by
  constructor
  · decide
  · decide

/-- C3 (amended): whenever the Input Resolver finds no usable HTML (no
rule matched, or the resolved string is empty), `/convert` returns 400
with `error` = `Nenhum HTML fornecido` and the `aceita` list of the
three accepted-encoding descriptions (the multipart entry covering
both file and form). -/
theorem convert_no_input (req : ConvRequest)
    (h : resolveHtml req = some none ∨
      resolveHtml req = some (some "")) :
    convert_html_to_pdf req =
      ConvOutcome.badRequest "Nenhum HTML fornecido" aceitaList ∧
    aceitaList.length = 3 := by
  rcases h with h | h <;> simp [convert_html_to_pdf, h, aceitaList]

/-- C3 witness: the empty request yields the 400 response with the
three-item `aceita` list. -/
theorem convert_no_input_example :
    convert_html_to_pdf ⟨none, "zz", none, [], []⟩ =
      ConvOutcome.badRequest "Nenhum HTML fornecido" aceitaList ∧
    aceitaList.length = 3 :=
  convert_no_input ⟨none, "zz", none, [], []⟩ (Or.inl (by decide))

/-- C10: a `/convert` JSON request whose `html` field holds the empty
string is treated exactly like one with the field absent: the handler
answers 400 `Nenhum HTML fornecido` (the `not html_content` check does
not distinguish the two) and the Render Adapter is never invoked. -/
theorem convert_json_empty_html (req : ConvRequest)
    (d : List (String × String))
    (h1 : ctMatches req "text/html" = false)
    (h2 : ctMatches req "application/json" = true)
    (hd : req.jsonBody = some d)
    (hh : d.lookup "html" = some "") :
    convert_html_to_pdf req =
      ConvOutcome.badRequest "Nenhum HTML fornecido" aceitaList ∧
    ∀ h f, convert_html_to_pdf req ≠ ConvOutcome.render h f := by
  have hres : resolveHtml req = some (some "") := by
    simp [resolveHtml, h1, h2, hd, hh]
  have hout : convert_html_to_pdf req =
      ConvOutcome.badRequest "Nenhum HTML fornecido" aceitaList := by
    simp [convert_html_to_pdf, hres]
  refine ⟨hout, fun h f hcontra => ?_⟩
  rw [hout] at hcontra
  exact ConvOutcome.noConfusion hcontra

/-- C10 witness: a concrete JSON request with `"html": ""` gets the 400
response and is not rendered. -/
theorem convert_json_empty_html_example :
    convert_html_to_pdf ⟨some "application/json", "",
        some [("html", "")], [], []⟩ =
      ConvOutcome.badRequest "Nenhum HTML fornecido" aceitaList ∧
    convert_html_to_pdf ⟨some "application/json", "",
        some [("html", "")], [], []⟩ ≠
      ConvOutcome.render "" "documento.pdf" :=
  ⟨(convert_json_empty_html ⟨some "application/json", "",
        some [("html", "")], [], []⟩ [("html", "")]
      (by decide) (by decide) rfl rfl).1,
   (convert_json_empty_html ⟨some "application/json", "",
        some [("html", "")], [], []⟩ [("html", "")]
      (by decide) (by decide) rfl rfl).2 "" "documento.pdf"⟩

/-- C2 counterexample: a `/convert-with-params` body whose `html` field
is the empty string is not rejected: validation only checks presence of
the key, so the handler proceeds to the injector and invokes the Render
Adapter instead of answering 400. -/
theorem convert_with_params_accepts_empty_html :
    convert_with_params (some [("html", "")]) =
      ParamsOutcome.render (injectPageCss "A4" "portrait" "")
        "documento.pdf" ∧
    convert_with_params (some [("html", "")]) ≠
      ParamsOutcome.badRequest "Campo \"html\" é obrigatório" := by
  constructor
  · rfl
  · decide

/-- C2 (amended): `/convert-with-params` answers 400 `Campo "html" é
obrigatório` exactly when the parsed body is no object, the empty
object, or an object without an `html` key — all without invoking the
Render Adapter; when the `html` key is present with any string value,
the empty string included, validation passes and the Render Adapter is
invoked on the injected document. -/
theorem convert_with_params_validation
    (d : Option (List (String × String))) :
    ((d = none ∨ ∃ l, d = some l ∧ l.lookup "html" = none) →
      convert_with_params d =
        ParamsOutcome.badRequest "Campo \"html\" é obrigatório") ∧
    (∀ l s, d = some l → l.lookup "html" = some s →
      convert_with_params d = ParamsOutcome.render
        (injectPageCss ((l.lookup "page_size").getD "A4")
          ((l.lookup "orientation").getD "portrait") s)
        ((l.lookup "filename").getD "documento.pdf")) := by
  constructor
  · rintro (rfl | ⟨l, rfl, hl⟩)
    · rfl
    · simp [convert_with_params, hl]
  · rintro l s rfl hs
    have hne : l.isEmpty = false := by
      cases l with
      | nil => simp [List.lookup] at hs
      | cons _ _ => rfl
    simp [convert_with_params, hs, hne]

/-- C2 witness: a body without `html` gets the 400 error; a body with a
non-empty `html` string reaches the renderer with the defaults filled
in. -/
theorem convert_with_params_validation_example :
    convert_with_params none =
      ParamsOutcome.badRequest "Campo \"html\" é obrigatório" ∧
    convert_with_params (some [("html", "<p>hi</p>")]) =
      ParamsOutcome.render (injectPageCss "A4" "portrait" "<p>hi</p>")
        "documento.pdf" :=
  ⟨(convert_with_params_validation none).1 (Or.inl rfl),
   (convert_with_params_validation (some [("html", "<p>hi</p>")])).2
      [("html", "<p>hi</p>")] "<p>hi</p>" rfl rfl⟩

end HtmlToPdf
